import Mathlib

/-!
# Verification of the adaptive interaction-style rule matcher

Shallow embedding of `src/app/decision.py` and `src/app/models.py`:
a context record with five optional enumerated attributes is dumped to a
string-keyed dictionary (`model_dump(exclude_none=True)`), and
`decide_style` scans an ordered rule list, returning the first rule whose
condition mapping is satisfied by the context, or a fallback decision
`("hybrid", -1)` when no rule matches.
-/

set_option autoImplicit false

namespace StyleRules

/-- `KnowledgeLevel` enum from `src/app/models.py`. -/
inductive KnowledgeLevel where
  | novice | intermediate | expert
deriving DecidableEq, Repr

/-- String value of a `KnowledgeLevel` member (`str`-valued enum). -/
def KnowledgeLevel.toStr : KnowledgeLevel → String
  | .novice => "novice"
  | .intermediate => "intermediate"
  | .expert => "expert"

/-- `Emotion` enum from `src/app/models.py`. -/
inductive Emotion where
  | positive | neutral | negative
deriving DecidableEq, Repr

/-- String value of an `Emotion` member. -/
def Emotion.toStr : Emotion → String
  | .positive => "positive"
  | .neutral => "neutral"
  | .negative => "negative"

/-- `GoalClarity` enum from `src/app/models.py`. -/
inductive GoalClarity where
  | clear | ambiguous
deriving DecidableEq, Repr

/-- String value of a `GoalClarity` member. -/
def GoalClarity.toStr : GoalClarity → String
  | .clear => "clear"
  | .ambiguous => "ambiguous"

/-- `Urgency` enum from `src/app/models.py`. -/
inductive Urgency where
  | high | normal | low
deriving DecidableEq, Repr

/-- String value of an `Urgency` member. -/
def Urgency.toStr : Urgency → String
  | .high => "high"
  | .normal => "normal"
  | .low => "low"

/-- `Stakes` enum from `src/app/models.py`. -/
inductive Stakes where
  | high | medium | low
deriving DecidableEq, Repr

/-- String value of a `Stakes` member. -/
def Stakes.toStr : Stakes → String
  | .high => "high"
  | .medium => "medium"
  | .low => "low"

/-- `InteractionContext` pydantic model from `src/app/models.py`:
five optional enumerated attributes, any subset may be set. -/
structure InteractionContext where
  knowledge : Option KnowledgeLevel := none
  emotion : Option Emotion := none
  clarity : Option GoalClarity := none
  urgency : Option Urgency := none
  stakes : Option Stakes := none
deriving DecidableEq, Repr

/-- `StyleDecision` pydantic model from `src/app/models.py`. -/
structure StyleDecision where
  style : String
  matched_rule_index : Int
deriving DecidableEq, Repr

/-- One entry of an attribute dictionary: a singleton when the optional
field is set, nothing when it is `None` (this is what
`model_dump(exclude_none=True)` does per field). -/
def optEntry (name : String) : Option String → List (String × String)
  | some v => [(name, v)]
  | none => []

/-- `context.model_dump(exclude_none=True)` from `src/app/decision.py`
line 36: the dictionary of the set attributes, keyed by field name, in
field-declaration order, with the `str`-enum members as values. -/
def InteractionContext.model_dump (c : InteractionContext) : List (String × String) :=
  optEntry "knowledge" (c.knowledge.map KnowledgeLevel.toStr) ++
  optEntry "emotion" (c.emotion.map Emotion.toStr) ++
  optEntry "clarity" (c.clarity.map GoalClarity.toStr) ++
  optEntry "urgency" (c.urgency.map Urgency.toStr) ++
  optEntry "stakes" (c.stakes.map Stakes.toStr)

/-- Python's `dict.get(key)` on a string-keyed dictionary (no default:
`None` when the key is absent). -/
def dictGet (d : List (String × String)) (k : String) : Option String :=
  match d with
  | [] => none
  | p :: rest => if p.1 = k then some p.2 else dictGet rest k

/-- A rule record, one entry of the `strategies` list of the YAML config.
`conditions` distinguishes the key being absent (`none`), present with a
null value (`some none`), and present with a mapping (`some (some l)`);
`style` is `none` when the rule entry lacks a style label. -/
structure Rule where
  conditions : Option (Option (List (String × String))) := none
  style : Option String := none
deriving DecidableEq, Repr

/-- `rule.get("conditions", {}) or {}` from `src/app/decision.py` line 40:
an absent key and a null value both give the empty mapping. -/
def Rule.conds (r : Rule) : List (String × String) :=
  match r.conditions with
  | none => []
  | some none => []
  | some (some l) => l

/-- The match test of `src/app/decision.py` line 42:
`all(ctx_dict.get(key) == value for key, value in conds.items())`. -/
def ruleMatches (ctx_dict : List (String × String)) (r : Rule) : Bool :=
  r.conds.all fun p => dictGet ctx_dict p.1 == some p.2

/-- The loop of `src/app/decision.py` lines 39-47: scan the rules in order
from index `idx`; on the first match return that rule's style (defaulting
to `"hybrid"` when the rule has no style entry) with its index; after the
loop return the fallback `("hybrid", -1)`. -/
def decideFrom (ctx_dict : List (String × String)) : List Rule → Nat → StyleDecision
  | [], _ => ⟨"hybrid", -1⟩
  | r :: rest, idx =>
    if ruleMatches ctx_dict r then ⟨r.style.getD "hybrid", (idx : Int)⟩
    else decideFrom ctx_dict rest (idx + 1)

/-- The YAML config dictionary as consumed by `decide_style`:
`config.get("strategies", [])` defaults to the empty rule list when the
key is absent. -/
structure Config where
  strategies : Option (List Rule) := none
deriving DecidableEq, Repr

/-- `decide_style(context, config)` from `src/app/decision.py` lines 29-47,
with the config supplied by the caller (the `config or get_config()`
branch where `config` is given). -/
def decide_style (context : InteractionContext) (config : Config) : StyleDecision :=
  let rules := config.strategies.getD []
  let ctx_dict := context.model_dump
  decideFrom ctx_dict rules 0

/-- The outcome of reading and parsing the configuration source, as seen
by `_load_config` (`src/app/decision.py` lines 15-20): the file may be
missing, its text may fail YAML parsing, or it parses to a config value. -/
inductive ConfigSource where
  | missing
  | unparseable
  | parsed (cfg : Config)
deriving DecidableEq, Repr

/-- `_load_config` from `src/app/decision.py` lines 15-20: raise
`FileNotFoundError` when the file is missing, propagate the YAML parse
error otherwise, and return whatever `yaml.safe_load` produced — there is
no validation of the shape of the parsed value. -/
def load_config : ConfigSource → Except String Config
  | .missing => .error "Style rules config not found"
  | .unparseable => .error "YAML parse error"
  | .parsed cfg => .ok cfg

/-- The attribute lookup on the context record itself: the value of the
named attribute when set, `none` when unset or when the name is not one
of the five attributes. -/
def InteractionContext.attr (c : InteractionContext) (k : String) : Option String :=
  if k = "knowledge" then c.knowledge.map KnowledgeLevel.toStr
  else if k = "emotion" then c.emotion.map Emotion.toStr
  else if k = "clarity" then c.clarity.map GoalClarity.toStr
  else if k = "urgency" then c.urgency.map Urgency.toStr
  else if k = "stakes" then c.stakes.map Stakes.toStr
  else none

/-- Explicit state-passing form of one call `decide_style(context, config)`:
the body binds `rules` and `ctx_dict` to fresh values read from the inputs
and contains no statement assigning to `context` or `config`, so the final
state of both inputs is threaded through unchanged alongside the result. -/
def decide_style_run (context : InteractionContext) (config : Config) :
    StyleDecision × InteractionContext × Config :=
  let rules := config.strategies.getD []
  let ctx_dict := context.model_dump
  (decideFrom ctx_dict rules 0, context, config)

/-! ## Basic lemmas about the dictionary and the scan -/

theorem dictGet_append (l1 l2 : List (String × String)) (k : String) :
    dictGet (l1 ++ l2) k =
      match dictGet l1 k with
      | some v => some v
      | none => dictGet l2 k := by
  induction l1 with
  | nil => simp [dictGet]
  | cons p rest ih =>
    by_cases h : p.1 = k <;> simp [dictGet, h, ih]

theorem dictGet_optEntry (n : String) (v : Option String) (k : String) :
    dictGet (optEntry n v) k = if k = n then v else none := by
  cases v with
  | none => simp [optEntry, dictGet]
  | some s =>
    by_cases h : k = n
    · simp [optEntry, dictGet, h]
    · have h2 : ¬ n = k := fun hh => h hh.symm
      simp [optEntry, dictGet, h, h2]

/-- The dumped dictionary agrees with attribute lookup on the record:
`ctx_dict.get(key)` is exactly the context's value for that attribute. -/
theorem dictGet_model_dump (c : InteractionContext) (k : String) :
    dictGet c.model_dump k = c.attr k := by
  unfold InteractionContext.model_dump InteractionContext.attr
  rw [dictGet_append, dictGet_append, dictGet_append, dictGet_append]
  rw [dictGet_optEntry, dictGet_optEntry, dictGet_optEntry, dictGet_optEntry,
    dictGet_optEntry]
  by_cases h1 : k = "knowledge" <;> by_cases h2 : k = "emotion" <;>
    by_cases h3 : k = "clarity" <;> by_cases h4 : k = "urgency" <;>
    by_cases h5 : k = "stakes" <;>
    simp_all <;>
    cases c.knowledge.map KnowledgeLevel.toStr <;>
    cases c.emotion.map Emotion.toStr <;>
    cases c.clarity.map GoalClarity.toStr <;>
    cases c.urgency.map Urgency.toStr <;> simp

/-- When no rule in the list matches, the scan falls through to the
fallback decision, whatever the start index. -/
theorem decideFrom_no_match (ctx : List (String × String)) :
    ∀ (rules : List Rule) (i : Nat),
      (∀ r ∈ rules, ruleMatches ctx r = false) →
      decideFrom ctx rules i = ⟨"hybrid", -1⟩ := by
  intro rules
  induction rules with
  | nil => intro i _; rfl
  | cons r rest ih =>
    intro i h
    have hr : ruleMatches ctx r = false := h r (List.mem_cons_self r rest)
    have hrest : ∀ r' ∈ rest, ruleMatches ctx r' = false :=
      fun r' hm => h r' (List.mem_cons_of_mem r hm)
    simp [decideFrom, hr, ih (i + 1) hrest]

/-- When the rule at offset `k` matches and no earlier rule does, the scan
started at index `i` returns that rule's style and the index `i + k`. -/
theorem decideFrom_first (ctx : List (String × String)) :
    ∀ (rules : List Rule) (i k : Nat) (hk : k < rules.length),
      ruleMatches ctx (rules.get ⟨k, hk⟩) = true →
      (∀ m (hm : m < rules.length), m < k → ruleMatches ctx (rules.get ⟨m, hm⟩) = false) →
      decideFrom ctx rules i =
        ⟨(rules.get ⟨k, hk⟩).style.getD "hybrid", ((i + k : Nat) : Int)⟩ := by
  intro rules
  induction rules with
  | nil => intro i k hk; exact absurd hk (Nat.not_lt_zero k)
  | cons r rest ih =>
    intro i k hk hmatch hfirst
    cases k with
    | zero =>
      simp only [List.get] at hmatch
      simp [decideFrom, hmatch]
    | succ k' =>
      have hr : ruleMatches ctx r = false := by
        have := hfirst 0 (Nat.succ_pos _) (Nat.succ_pos _)
        simpa using this
      have hk' : k' < rest.length := Nat.lt_of_succ_lt_succ hk
      have hfirst' : ∀ m (hm : m < rest.length), m < k' →
          ruleMatches ctx (rest.get ⟨m, hm⟩) = false := by
        intro m hm hmk
        have := hfirst (m + 1) (Nat.succ_lt_succ hm) (Nat.succ_lt_succ hmk)
        simpa using this
      have heq : (r :: rest).get ⟨k' + 1, hk⟩ = rest.get ⟨k', hk'⟩ := rfl
      have hmatch' : ruleMatches ctx (rest.get ⟨k', hk'⟩) = true := heq ▸ hmatch
      have step : decideFrom ctx (r :: rest) i = decideFrom ctx rest (i + 1) := by
        simp [decideFrom, hr]
      rw [step, ih (i + 1) k' hk' hmatch' hfirst', heq]
      congr 1
      omega

/-- If some rule in the list matches, there is a first matching offset. -/
theorem exists_first_match (ctx : List (String × String)) :
    ∀ (rules : List Rule),
      (∃ r ∈ rules, ruleMatches ctx r = true) →
      ∃ k, ∃ hk : k < rules.length,
        ruleMatches ctx (rules.get ⟨k, hk⟩) = true ∧
        ∀ m (hm : m < rules.length), m < k → ruleMatches ctx (rules.get ⟨m, hm⟩) = false := by
  intro rules
  induction rules with
  | nil => rintro ⟨r, hr, _⟩; exact absurd hr (List.not_mem_nil r)
  | cons r rest ih =>
    intro hex
    by_cases hr : ruleMatches ctx r = true
    · exact ⟨0, Nat.succ_pos _, hr, fun m hm hmk => absurd hmk (Nat.not_lt_zero m)⟩
    · have hrf : ruleMatches ctx r = false := Bool.eq_false_iff.mpr hr
      have hex' : ∃ r' ∈ rest, ruleMatches ctx r' = true := by
        rcases hex with ⟨r', hmem, hm⟩
        rcases List.mem_cons.mp hmem with h | h
        · exact absurd (h ▸ hm) hr
        · exact ⟨r', h, hm⟩
      rcases ih hex' with ⟨k, hk, hkm, hkf⟩
      refine ⟨k + 1, Nat.succ_lt_succ hk, by simpa using hkm, ?_⟩
      intro m hm hmk
      cases m with
      | zero => simpa using hrf
      | succ m' =>
        have := hkf m' (Nat.lt_of_succ_lt_succ hm) (Nat.lt_of_succ_lt_succ hmk)
        simpa using this

/-- Truncating the rule list just after the first match (and appending
anything in its place) does not change the scan's result: the rules after
the first match are never considered. -/
theorem decideFrom_take_append (ctx : List (String × String)) :
    ∀ (rules : List Rule) (i k : Nat) (hk : k < rules.length),
      ruleMatches ctx (rules.get ⟨k, hk⟩) = true →
      (∀ m (hm : m < rules.length), m < k → ruleMatches ctx (rules.get ⟨m, hm⟩) = false) →
      ∀ rules', decideFrom ctx (rules.take (k + 1) ++ rules') i = decideFrom ctx rules i := by
  intro rules
  induction rules with
  | nil => intro i k hk; exact absurd hk (Nat.not_lt_zero k)
  | cons r rest ih =>
    intro i k hk hmatch hfirst rules'
    cases k with
    | zero =>
      have hr : ruleMatches ctx r = true := hmatch
      simp [decideFrom, hr]
    | succ k' =>
      have hr : ruleMatches ctx r = false := by
        simpa using hfirst 0 (Nat.succ_pos _) (Nat.succ_pos _)
      have hk' : k' < rest.length := Nat.lt_of_succ_lt_succ hk
      have heq : (r :: rest).get ⟨k' + 1, hk⟩ = rest.get ⟨k', hk'⟩ := rfl
      have hfirst' : ∀ m (hm : m < rest.length), m < k' →
          ruleMatches ctx (rest.get ⟨m, hm⟩) = false := by
        intro m hm hmk
        simpa using hfirst (m + 1) (Nat.succ_lt_succ hm) (Nat.succ_lt_succ hmk)
      have : (r :: rest).take (k' + 1 + 1) ++ rules' =
          r :: (rest.take (k' + 1) ++ rules') := by
        simp [List.take]
      rw [this]
      simp only [decideFrom, hr, Bool.false_eq_true, if_false]
      exact ih (i + 1) k' hk' (heq ▸ hmatch) hfirst' rules'

/-- Case split on the result of `decide_style`: either no rule matches and
the result is the fallback, or the result is produced by the first
matching rule. -/
theorem decide_style_cases (c : InteractionContext) (rules : List Rule) :
    (decide_style c ⟨some rules⟩ = ⟨"hybrid", -1⟩ ∧
      ∀ r ∈ rules, ruleMatches c.model_dump r = false) ∨
    (∃ k, ∃ hk : k < rules.length,
      ruleMatches c.model_dump (rules.get ⟨k, hk⟩) = true ∧
      (∀ m (hm : m < rules.length), m < k →
        ruleMatches c.model_dump (rules.get ⟨m, hm⟩) = false) ∧
      decide_style c ⟨some rules⟩ =
        ⟨(rules.get ⟨k, hk⟩).style.getD "hybrid", (k : Int)⟩) := by
  by_cases hex : ∃ r ∈ rules, ruleMatches c.model_dump r = true
  · right
    rcases exists_first_match c.model_dump rules hex with ⟨k, hk, hkm, hkf⟩
    refine ⟨k, hk, hkm, hkf, ?_⟩
    have := decideFrom_first c.model_dump rules 0 k hk hkm hkf
    simpa [decide_style] using this
  · left
    have hall : ∀ r ∈ rules, ruleMatches c.model_dump r = false := by
      intro r hr
      cases hb : ruleMatches c.model_dump r with
      | false => rfl
      | true => exact absurd ⟨r, hr, hb⟩ hex
    have := decideFrom_no_match c.model_dump rules 0 hall
    exact ⟨by simpa [decide_style] using this, hall⟩

/-! ## Sample values used by the witnesses -/

/-- A catch-all rule with an empty constraint mapping and style `"a"`. -/
def wildA : Rule := ⟨some (some []), some "a"⟩

/-- A catch-all rule with an empty constraint mapping and style `"b"`. -/
def wildB : Rule := ⟨some (some []), some "b"⟩

/-- A rule requiring expert knowledge. -/
def expertRule : Rule := ⟨some (some [("knowledge", "expert")]), some "concise"⟩

/-! ## Claim theorems -/

/-- **C1** First-match priority: for every context and rule list, if the
rules at indices `i` and `j` with `i < j` both match the context, then
`decide_style` returns the style and index of the first matching rule,
whose index `k` is at most `i`; in particular the returned index is never
`j`, and the rules after the first match are not considered: replacing
everything after index `k` changes nothing. -/
theorem first_match_priority (c : InteractionContext) (rules : List Rule)
    (i j : Nat) (hij : i < j) (hj : j < rules.length)
    (hi : ruleMatches c.model_dump (rules.get ⟨i, Nat.lt_trans hij hj⟩) = true)
    (_hjm : ruleMatches c.model_dump (rules.get ⟨j, hj⟩) = true) :
    ∃ k, ∃ hk : k < rules.length,
      k ≤ i ∧
      ruleMatches c.model_dump (rules.get ⟨k, hk⟩) = true ∧
      (∀ m (hm : m < rules.length), m < k →
        ruleMatches c.model_dump (rules.get ⟨m, hm⟩) = false) ∧
      decide_style c ⟨some rules⟩ =
        ⟨(rules.get ⟨k, hk⟩).style.getD "hybrid", (k : Int)⟩ ∧
      (decide_style c ⟨some rules⟩).matched_rule_index ≠ (j : Int) ∧
      (∀ rules', decide_style c ⟨some (rules.take (k + 1) ++ rules')⟩ =
        decide_style c ⟨some rules⟩) := by
  have hex : ∃ r ∈ rules, ruleMatches c.model_dump r = true :=
    ⟨rules.get ⟨i, Nat.lt_trans hij hj⟩, List.get_mem rules i (Nat.lt_trans hij hj), hi⟩
  rcases exists_first_match c.model_dump rules hex with ⟨k, hk, hkm, hkf⟩
  have hki : k ≤ i := by
    by_contra hgt
    have : ruleMatches c.model_dump (rules.get ⟨i, Nat.lt_trans hij hj⟩) = false :=
      hkf i (Nat.lt_trans hij hj) (Nat.lt_of_not_le hgt)
    rw [hi] at this
    exact absurd this (by decide)
  have hres : decide_style c ⟨some rules⟩ =
      ⟨(rules.get ⟨k, hk⟩).style.getD "hybrid", (k : Int)⟩ := by
    have := decideFrom_first c.model_dump rules 0 k hk hkm hkf
    simpa [decide_style] using this
  refine ⟨k, hk, hki, hkm, hkf, hres, ?_, ?_⟩
  · rw [hres]
    simp only [ne_eq, Int.natCast_inj]
    omega
  · intro rules'
    have := decideFrom_take_append c.model_dump rules 0 k hk hkm hkf rules'
    simp only [decide_style, Option.getD_some]
    exact this

/-- **C1 witness**: with the empty context and two catch-all rules, both
indices 0 and 1 match, and the conclusion holds at that instance. -/
theorem first_match_priority_witness :
    ∃ k, ∃ hk : k < ([wildA, wildB] : List Rule).length,
      k ≤ 0 ∧
      ruleMatches ({} : InteractionContext).model_dump
        (([wildA, wildB] : List Rule).get ⟨k, hk⟩) = true ∧
      (∀ m (hm : m < ([wildA, wildB] : List Rule).length), m < k →
        ruleMatches ({} : InteractionContext).model_dump
          (([wildA, wildB] : List Rule).get ⟨m, hm⟩) = false) ∧
      decide_style {} ⟨some [wildA, wildB]⟩ =
        ⟨(([wildA, wildB] : List Rule).get ⟨k, hk⟩).style.getD "hybrid", (k : Int)⟩ ∧
      (decide_style {} ⟨some [wildA, wildB]⟩).matched_rule_index ≠ ((1 : Nat) : Int) ∧
      (∀ rules', decide_style {} ⟨some (([wildA, wildB] : List Rule).take (k + 1) ++ rules')⟩ =
        decide_style {} ⟨some [wildA, wildB]⟩) :=
  first_match_priority {} [wildA, wildB] 0 1 (by decide) (by decide)
    (by decide) (by decide)

/-- **C2** Match semantics: a rule matches a context iff, for every
(attribute, requiredValue) pair in the rule's constraint mapping, the
context's value for that attribute is set and equals the required value. -/
theorem match_semantics (c : InteractionContext) (r : Rule) :
    ruleMatches c.model_dump r = true ↔
      ∀ p ∈ r.conds, (c.attr p.1).isSome = true ∧ c.attr p.1 = some p.2 := by
  unfold ruleMatches
  rw [List.all_eq_true]
  constructor
  · intro h p hp
    have h2 := h p hp
    rw [beq_iff_eq, dictGet_model_dump] at h2
    exact ⟨by rw [h2]; rfl, h2⟩
  · intro h p hp
    rw [beq_iff_eq, dictGet_model_dump]
    exact (h p hp).2

/-- **C3** No-match fallback: when no rule in the list matches the
context (in particular for the empty list), `decide_style` returns the
fallback decision: style `"hybrid"` with index `-1`. -/
theorem no_match_fallback (c : InteractionContext) (rules : List Rule)
    (h : ∀ r ∈ rules, ruleMatches c.model_dump r = false) :
    decide_style c ⟨some rules⟩ = ⟨"hybrid", -1⟩ := by
  have := decideFrom_no_match c.model_dump rules 0 h
  simpa [decide_style] using this

/-- **C3 witness**: the empty context matches no rule of
`[expertRule]`, and the fallback decision is returned. -/
theorem no_match_fallback_witness :
    decide_style {} ⟨some [expertRule]⟩ = ⟨"hybrid", -1⟩ :=
  no_match_fallback {} [expertRule] (by decide)

/-- **C4** Wildcard correctness: a rule whose constraint mapping is empty
matches every context (including the one with no attributes set), and if
such a rule is in the list the returned index is never `-1`. -/
theorem wildcard_matches (c : InteractionContext) (rules : List Rule) (r : Rule)
    (hconds : r.conds = []) :
    ruleMatches c.model_dump r = true ∧
    (r ∈ rules → (decide_style c ⟨some rules⟩).matched_rule_index ≠ -1) := by
  have hm : ruleMatches c.model_dump r = true := by
    unfold ruleMatches
    rw [hconds]
    rfl
  refine ⟨hm, fun hmem => ?_⟩
  rcases decide_style_cases c rules with ⟨_, hall⟩ | ⟨k, hk, _, _, hres⟩
  · rw [hall r hmem] at hm
    exact absurd hm (by simp)
  · rw [hres]
    simp only [ne_eq]
    intro hcontra
    have : (k : Int) = -1 := hcontra
    omega

/-- **C4 witness**: the catch-all rule `wildA` matches the empty context,
and when present in the list the fallback index `-1` is not returned. -/
theorem wildcard_matches_witness :
    ruleMatches ({} : InteractionContext).model_dump wildA = true ∧
    (wildA ∈ ([expertRule, wildA] : List Rule) →
      (decide_style {} ⟨some [expertRule, wildA]⟩).matched_rule_index ≠ -1) :=
  wildcard_matches {} [expertRule, wildA] wildA rfl

/-- **C5** Totality: for every context and every (possibly empty) rule
list, `decide_style` returns exactly one decision, and that decision is
either the fallback or the one produced by a matching rule at a valid
index. -/
theorem totality_decision (c : InteractionContext) (rules : List Rule) :
    ∃ d : StyleDecision, decide_style c ⟨some rules⟩ = d ∧
      (∀ d', decide_style c ⟨some rules⟩ = d' → d' = d) ∧
      (d = ⟨"hybrid", -1⟩ ∨
        ∃ k, ∃ hk : k < rules.length,
          ruleMatches c.model_dump (rules.get ⟨k, hk⟩) = true ∧
          d = ⟨(rules.get ⟨k, hk⟩).style.getD "hybrid", (k : Int)⟩) := by
  refine ⟨decide_style c ⟨some rules⟩, rfl, fun d' h => h.symm, ?_⟩
  rcases decide_style_cases c rules with ⟨h1, _⟩ | ⟨k, hk, hkm, _, hres⟩
  · exact Or.inl h1
  · exact Or.inr ⟨k, hk, hkm, hres⟩

/-- **C6** Determinism: two evaluations of `decide_style` on the same
(context, config) pair yield decisions equal in both components. -/
theorem determinism_eq (c : InteractionContext) (cfg : Config)
    (d1 d2 : StyleDecision)
    (h1 : d1 = decide_style c cfg) (h2 : d2 = decide_style c cfg) :
    d1.style = d2.style ∧ d1.matched_rule_index = d2.matched_rule_index := by
  subst h1
  subst h2
  exact ⟨rfl, rfl⟩

/-- **C6 witness**: two evaluations on the empty context and the
single-rule list `[wildA]` agree in both components. -/
theorem determinism_eq_witness :
    (⟨"a", 0⟩ : StyleDecision).style = (⟨"a", 0⟩ : StyleDecision).style ∧
    (⟨"a", 0⟩ : StyleDecision).matched_rule_index =
      (⟨"a", 0⟩ : StyleDecision).matched_rule_index :=
  determinism_eq {} ⟨some [wildA]⟩ ⟨"a", 0⟩ ⟨"a", 0⟩ (by decide) (by decide)

/-- **C7** No mutation of inputs: the state-passing form of a call
returns both inputs unchanged next to the result, and the result is the
pure function `decide_style` of exactly the two inputs. -/
theorem no_input_mutation (c : InteractionContext) (cfg : Config) :
    decide_style_run c cfg = (decide_style c cfg, c, cfg) := rfl

/-- **C8 counterexample**: the claim "a configuration containing a rule
entry that lacks a style label is rejected at load time … and such
malformed rules never surface during matching" is false on the code: a
parseable config whose single rule lacks a style label is returned intact
by the loader, and that rule is then selected during matching (index 0,
not the fallback `-1`). -/
theorem load_rejects_malformed_cex :
    load_config (ConfigSource.parsed ⟨some [⟨some (some []), none⟩]⟩) =
      Except.ok ⟨some [⟨some (some []), none⟩]⟩ ∧
    (decide_style {} ⟨some [⟨some (some []), none⟩]⟩).matched_rule_index = 0 ∧
    decide_style {} ⟨some [⟨some (some []), none⟩]⟩ = ⟨"hybrid", 0⟩ :=
  ⟨rfl, rfl, rfl⟩

/-- **C8 amended**: a missing or unparseable configuration source is
rejected with an error at load time; but a source that parses is returned
with no validation of its shape — in particular a rule entry lacking a
style label is accepted at load time, and when such a rule is the first
match its style defaults to `"hybrid"` during evaluation. -/
theorem load_rejects_malformed_amended :
    (∃ e, load_config ConfigSource.missing = Except.error e) ∧
    (∃ e, load_config ConfigSource.unparseable = Except.error e) ∧
    (∀ cfg, load_config (ConfigSource.parsed cfg) = Except.ok cfg) ∧
    (∀ (c : InteractionContext) (rules : List Rule) (r : Rule),
      r.style = none → ruleMatches c.model_dump r = true →
      decide_style c ⟨some (r :: rules)⟩ = ⟨"hybrid", 0⟩) := by
  refine ⟨⟨_, rfl⟩, ⟨_, rfl⟩, fun cfg => rfl, ?_⟩
  intro c rules r hstyle hm
  simp [decide_style, decideFrom, hm, hstyle]

/-- **C8 amended witness**: a style-less catch-all rule is selected for
the empty context with the default style `"hybrid"`. -/
theorem load_rejects_malformed_amended_witness :
    decide_style {} ⟨some (⟨some (some []), none⟩ :: ([] : List Rule))⟩ =
      ⟨"hybrid", 0⟩ :=
  load_rejects_malformed_amended.2.2.2 {} [] ⟨some (some []), none⟩ rfl rfl

/-- **C9** Null conditions are a wildcard: a rule whose `conditions`
entry is present but null has the same constraint mapping as one with an
empty mapping, matches every context, and is selected (with its own style
and index) when it is the first rule reached — i.e. when no earlier rule
matches. -/
theorem null_conditions_wildcard (c : InteractionContext) (rules : List Rule)
    (i : Nat) (hi : i < rules.length) (s : Option String)
    (hr : rules.get ⟨i, hi⟩ = ⟨some none, s⟩)
    (hbefore : ∀ m (hm : m < rules.length), m < i →
      ruleMatches c.model_dump (rules.get ⟨m, hm⟩) = false) :
    Rule.conds ⟨some none, s⟩ = Rule.conds ⟨some (some []), s⟩ ∧
    ruleMatches c.model_dump ⟨some none, s⟩ = true ∧
    decide_style c ⟨some rules⟩ = ⟨s.getD "hybrid", (i : Int)⟩ := by
  have hm : ruleMatches c.model_dump (⟨some none, s⟩ : Rule) = true := rfl
  refine ⟨rfl, hm, ?_⟩
  have hmatch : ruleMatches c.model_dump (rules.get ⟨i, hi⟩) = true := by
    rw [hr]
    exact hm
  have := decideFrom_first c.model_dump rules 0 i hi hmatch hbefore
  rw [hr] at this
  simpa [decide_style] using this

/-- **C9 witness**: a single rule with a null conditions entry and style
`"x"` is selected for the empty context. -/
theorem null_conditions_wildcard_witness :
    Rule.conds ⟨some none, some "x"⟩ = Rule.conds ⟨some (some []), some "x"⟩ ∧
    ruleMatches ({} : InteractionContext).model_dump ⟨some none, some "x"⟩ = true ∧
    decide_style {} ⟨some [⟨some none, some "x"⟩]⟩ =
      ⟨(some "x").getD "hybrid", ((0 : Nat) : Int)⟩ :=
  null_conditions_wildcard {} [⟨some none, some "x"⟩] 0 (by decide) (some "x") rfl
    (fun m hm h => absurd h (Nat.not_lt_zero m))

/-- **C10** A first matching rule with no style entry does not make the
evaluation fail: the returned decision is the default style `"hybrid"`
paired with that rule's index, which is non-negative (unlike the no-match
fallback index `-1`). -/
theorem missing_style_defaults (c : InteractionContext) (rules : List Rule)
    (i : Nat) (hi : i < rules.length)
    (hstyle : (rules.get ⟨i, hi⟩).style = none)
    (hmatch : ruleMatches c.model_dump (rules.get ⟨i, hi⟩) = true)
    (hbefore : ∀ m (hm : m < rules.length), m < i →
      ruleMatches c.model_dump (rules.get ⟨m, hm⟩) = false) :
    decide_style c ⟨some rules⟩ = ⟨"hybrid", (i : Int)⟩ ∧ (0 : Int) ≤ (i : Int) := by
  have := decideFrom_first c.model_dump rules 0 i hi hmatch hbefore
  rw [hstyle] at this
  constructor
  · simpa [decide_style] using this
  · omega

/-- **C10 witness**: a style-less rule constraining `emotion: negative`
is the first match for a context with negative emotion, and the decision
is `("hybrid", 0)`. -/
theorem missing_style_defaults_witness :
    decide_style { emotion := some .negative }
        ⟨some [⟨some (some [("emotion", "negative")]), none⟩]⟩ =
      ⟨"hybrid", ((0 : Nat) : Int)⟩ ∧ (0 : Int) ≤ ((0 : Nat) : Int) :=
  missing_style_defaults { emotion := some .negative }
    [⟨some (some [("emotion", "negative")]), none⟩] 0 (by decide) rfl (by decide)
    (fun m hm h => absurd h (Nat.not_lt_zero m))

/-! ## Sanity checks against the repository's tests (`src/tests/test_decision.py`) -/

/-- The rule list of `configs/style_rules.yaml` as exercised by the
tests: condition/style pairs reconstructed from the four test cases. -/
def testRules : List Rule :=
  [⟨some (some [("emotion", "negative")]), some "reassuring_explanatory"⟩,
   ⟨some (some [("knowledge", "novice")]), some "explanatory"⟩,
   ⟨some (some [("knowledge", "expert"), ("clarity", "clear"), ("urgency", "normal")]),
     some "concise"⟩,
   ⟨some (some [("clarity", "ambiguous"), ("emotion", "positive"), ("urgency", "low")]),
     some "invitational"⟩]

example :
    (decide_style { knowledge := some .novice } ⟨some testRules⟩).style =
      "explanatory" := by decide

example :
    (decide_style { emotion := some .negative } ⟨some testRules⟩).style =
      "reassuring_explanatory" := by decide

example :
    (decide_style
        { knowledge := some .expert, clarity := some .clear, urgency := some .normal }
        ⟨some testRules⟩).style = "concise" := by decide

example :
    (decide_style
        { clarity := some .ambiguous, emotion := some .positive, urgency := some .low }
        ⟨some testRules⟩).style = "invitational" := by decide

example : decide_style {} ⟨some []⟩ = ⟨"hybrid", -1⟩ := by decide

example :
    decide_style { knowledge := some .novice }
      ⟨some [⟨some (some [("knowledge", "novice")]), some "explanatory"⟩]⟩ =
      ⟨"explanatory", 0⟩ := by decide

example :
    decide_style { knowledge := some .novice }
      ⟨some [⟨some (some [("emotion", "negative")]), some "reassuring"⟩,
             ⟨some (some []), some "catchall"⟩]⟩ =
      ⟨"catchall", 1⟩ := by decide

end StyleRules
